import Mathlib

/-!
Verification of the DeepDFT dataset pipeline (`src/deepdft/dataset.py`).

Shallow embedding conventions:
* numpy arrays and Python lists are Lean `List`s; where the column width of an
  array matters it is tracked explicitly (see `NDArray` below);
* Python floats are modelled as exact values of a linear ordered commutative
  ring (instantiated at `ℤ` in concrete witnesses, at `ℚ` where literal
  thresholds such as `1e-4` occur); no rounding behaviour is modelled;
* Python dicts are association lists; a raised `KeyError` / failed `assert` /
  numpy error is `Option.none`;
* the multiprocessing queues of the grid iterator are modelled by the list of
  `(slice_index, result)` pairs in arrival order, and the rotating pool's
  background writes by an explicit step relation.
-/

namespace DeepDFT

/- ================================================================
   Grid slicing: `DensityGridIterator` (dataset.py lines 182-220)
   ================================================================ -/

/-- `self.num_slices = int(math.ceil(num_positions / probe_count))`
(dataset.py line 185), as natural-number ceiling division. -/
def num_slices (total probe_count : ℕ) : ℕ :=
  (total + probe_count - 1) / probe_count

/-- The flat grid indices covered by one slice:
`flat_index = np.arange(slice_index*probe_count, min((slice_index+1)*probe_count, num_positions))`
(dataset.py line 204). -/
def slice_flat_index (slice_index probe_count total : ℕ) : List ℕ :=
  List.range' (slice_index * probe_count)
    (min ((slice_index + 1) * probe_count) total - slice_index * probe_count)

/- ================================================================
   Neighbor-index backend selection (dataset.py lines 349-357 and 389-392)
   ================================================================ -/

/-- The two neighbor-index backends: `AseNeigborListWrapper` (fallback)
and `asap3.FullNeighborList` (fast). -/
inductive NeighborlistKind : Type
  | fallback : NeighborlistKind
  | fast : NeighborlistKind
deriving DecidableEq

/-- The condition of dataset.py line 354:
`np.any(atoms.get_cell().lengths() <= 0.0001) or (np.any(atoms.get_pbc()) and np.any(atoms.get_cell().lengths() < cutoff))`. -/
def atoms_to_graph_use_fallback (cell_lengths : List ℚ) (pbc : List Bool)
    (cutoff : ℚ) : Bool :=
  (cell_lengths.any fun l => decide (l ≤ 1/10000)) ||
    ((pbc.any fun b => b) && (cell_lengths.any fun l => decide (l < cutoff)))

/-- The condition of dataset.py line 389 (probe-query fallback path inside
`probes_to_graph`); textually identical to line 354 and evaluated on the same
`atoms` object. -/
def probes_to_graph_use_fallback (cell_lengths : List ℚ) (pbc : List Bool)
    (cutoff : ℚ) : Bool :=
  (cell_lengths.any fun l => decide (l ≤ 1/10000)) ||
    ((pbc.any fun b => b) && (cell_lengths.any fun l => decide (l < cutoff)))

/-- Backend chosen by `atoms_to_graph` (dataset.py lines 354-357). -/
def atoms_to_graph_neighborlist (cell_lengths : List ℚ) (pbc : List Bool)
    (cutoff : ℚ) : NeighborlistKind :=
  if atoms_to_graph_use_fallback cell_lengths pbc cutoff then .fallback else .fast

/-- Backend chosen by the probe-query fallback path of `probes_to_graph`
(dataset.py lines 389-392). -/
def probes_to_graph_neighborlist (cell_lengths : List ℚ) (pbc : List Bool)
    (cutoff : ℚ) : NeighborlistKind :=
  if probes_to_graph_use_fallback cell_lengths pbc cutoff then .fallback else .fast

/- ================================================================
   Ordered result delivery: `DensityGridIterator.__iter__/__next__`
   (dataset.py lines 223-249)
   ================================================================ -/

/-- Membership test / read of the Python dict `self.finished_slices`,
modelled as an association list keyed by slice index. -/
def dictFind {R : Type} (t : ℕ) : List (ℕ × R) → Option R
  | [] => none
  | (i, v) :: rest => if i = t then some v else dictFind t rest

/-- `self.finished_slices.pop(this_slice)`: remove the entry with the given
key (first occurrence). -/
def dictPop {R : Type} (t : ℕ) : List (ℕ × R) → List (ℕ × R)
  | [] => []
  | (i, v) :: rest => if i = t then rest else (i, v) :: dictPop t rest

/-- One `__next__` call for target slice `t` (dataset.py lines 240-245):
`while this_slice not in self.finished_slices: i, res = self.result_queue.get();
self.finished_slices[i] = res` followed by `return self.finished_slices.pop(this_slice)`.
`stream` is the sequence of `(slice_index, result)` pairs the result queue
will deliver, in arrival order; blocking forever on an exhausted queue is
`none`.  Returns the delivered result together with the remaining pending map
and the unconsumed stream. -/
def retrieve_slice {R : Type} (t : ℕ) :
    List (ℕ × R) → List (ℕ × R) → Option (R × List (ℕ × R) × List (ℕ × R))
  | pending, stream =>
    match dictFind t pending with
    | some r => some (r, dictPop t pending, stream)
    | none =>
      match stream with
      | [] => none
      | (i, v) :: rest => retrieve_slice t ((i, v) :: pending) rest

/-- The whole consumption loop: `__next__` is called once for each of
`current_slice = 0, 1, …` in turn (`targets`), threading the pending-results
map and the arrival stream. -/
def grid_iterator_run {R : Type} :
    List ℕ → List (ℕ × R) → List (ℕ × R) → Option (List R)
  | [], _, _ => some []
  | t :: ts, pending, stream =>
    match retrieve_slice t pending stream with
    | none => none
    | some (r, p', s') => (grid_iterator_run ts p' s').map (fun l => r :: l)

/-- The sequence of results yielded by iterating a `DensityGridIterator` with
`num_slices = n`, when the result queue delivers `stream`: the pending map
starts empty and the targets are `0, 1, …, n-1`. -/
def grid_iterator_output {R : Type} (n : ℕ) (stream : List (ℕ × R)) :
    Option (List R) :=
  grid_iterator_run (List.range n) [] stream

/- ================================================================
   Neighbor graphs (dataset.py lines 130-162 and 349-407)
   ================================================================ -/

/-- A 3D position with exact coordinates in a linear ordered commutative
ring, modelling the float coordinates of ASE atoms and probe points. -/
structure Vec3 (A : Type) where
  x : A
  y : A
  z : A
deriving DecidableEq

/-- The zero vector. -/
def vzero {A : Type} [LinearOrderedCommRing A] : Vec3 A := ⟨0, 0, 0⟩

/-- Componentwise vector addition. -/
def vadd {A : Type} [LinearOrderedCommRing A] (a b : Vec3 A) : Vec3 A :=
  ⟨a.x + b.x, a.y + b.y, a.z + b.z⟩

/-- Componentwise vector negation. -/
def vneg {A : Type} [LinearOrderedCommRing A] (a : Vec3 A) : Vec3 A :=
  ⟨-a.x, -a.y, -a.z⟩

/-- Squared Euclidean distance: `dist2 = np.sum(np.square(rel_positions))`
(dataset.py line 160). -/
def dist2 {A : Type} [LinearOrderedCommRing A] (a b : Vec3 A) : A :=
  (a.x - b.x) ^ 2 + (a.y - b.y) ^ 2 + (a.z - b.z) ^ 2

/-- Modelled from the spec: the NeighborIndex per-atom query contract (§4.1)
realized by the external ase/asap3 neighbor lists (built with
`self_interaction=False, bothways=True`, dataset.py lines 136-142), whose
implementations are not part of this repository's sources.  For atom `i` it
returns every pair `(j, d2)` such that some periodic image
`positions[j] + t` of atom `j` — the translation `t` drawn from `images`,
with `images = [vzero]` for a non-periodic structure and the set of in-range
integer combinations of lattice vectors for a periodic one — lies strictly
within `cutoff` of `positions[i]`, with `d2` the squared distance
`neigh_dist2`; self-interaction `j = i` is excluded.  The source takes
`neigh_dist = np.sqrt(neigh_dist2)` as the edge feature (line 361); the
embedding keeps the squared distance, which determines it. -/
def neighbor_query {A : Type} [LinearOrderedCommRing A] (positions : List (Vec3 A))
    (images : List (Vec3 A)) (cutoff : A) (i : ℕ) : List (ℕ × A) :=
  ((List.range positions.length).filter (fun j => j ≠ i)).flatMap (fun j =>
    images.filterMap (fun t =>
      if dist2 (vadd (positions.getD j vzero) t) (positions.getD i vzero) < cutoff ^ 2
      then some (j, dist2 (vadd (positions.getD j vzero) t) (positions.getD i vzero))
      else none))

/-- The per-atom edge lists built by the loop of `atoms_to_graph`
(dataset.py lines 359-368): for each atom `i`,
`edges = np.stack((neigh_idx, self_index), axis=1)` gives the directed edges
`(neighbor, i)`, with `neigh_dist` as feature. -/
def atoms_to_graph_per_atom {A : Type} [LinearOrderedCommRing A]
    (positions images : List (Vec3 A)) (cutoff : A) : List (List (ℕ × ℕ × A)) :=
  (List.range positions.length).map (fun i =>
    (neighbor_query positions images cutoff i).map (fun jd => (jd.1, i, jd.2)))

/-- The flattened atom edge set (`np.concatenate(atom_edges, axis=0)` in the
callers at dataset.py lines 313 and 339); a triple `(j, i, d2)` is the
directed edge `j → i` carried with its squared-distance feature. -/
def atoms_to_graph {A : Type} [LinearOrderedCommRing A]
    (positions images : List (Vec3 A)) (cutoff : A) : List (ℕ × ℕ × A) :=
  (atoms_to_graph_per_atom positions images cutoff).flatten

/-- Modelled from the spec: `asap3.FullNeighborList.get_neighbors_querypoint`
(external; spec §4.1-§4.2 "supports batched probe queries … queried once per
probe"): for one query point, the structure's atoms within the cutoff (via
some periodic image), with squared distances. -/
def querypoint_neighbors {A : Type} [LinearOrderedCommRing A]
    (positions images : List (Vec3 A)) (cutoff : A) (p : Vec3 A) : List (ℕ × A) :=
  (List.range positions.length).flatMap (fun j =>
    images.filterMap (fun t =>
      if dist2 (vadd (positions.getD j vzero) t) p < cutoff ^ 2
      then some (j, dist2 (vadd (positions.getD j vzero) t) p)
      else none))

/-- The per-probe edge lists of `probes_to_graph` (dataset.py lines 372-407).
`useQuery = true` is the fast branch (`get_neighbors_querypoint`, one result
list per probe); `useQuery = false` is the fallback branch, which appends the
probes as atomic-number-0 pseudo-atoms behind the atoms
(`atoms_with_probes`, lines 379-384) and queries the neighbors of pseudo-atom
`len(atoms) + i` (line 394).  The shared loop (lines 396-405) keeps only
neighbors of nonzero atomic species (`neigh_is_atom`) and emits edges
`(atom_index, probe_local_index)` (`self_index = np.ones_like(neigh_atoms) * i`)
with the distance feature. -/
def probes_to_graph_per_probe {A : Type} [LinearOrderedCommRing A] (useQuery : Bool)
    (positions : List (Vec3 A)) (numbers : List ℤ) (probe_pos : List (Vec3 A))
    (images : List (Vec3 A)) (cutoff : A) : List (List (ℕ × ℕ × A)) :=
  if useQuery then
    (List.range probe_pos.length).map (fun i =>
      (querypoint_neighbors positions images cutoff (probe_pos.getD i vzero)).filterMap
        (fun jd => if numbers.getD jd.1 0 ≠ 0 then some (jd.1, i, jd.2) else none))
  else
    (List.range probe_pos.length).map (fun i =>
      (neighbor_query (positions ++ probe_pos) images cutoff
          (positions.length + i)).filterMap
        (fun jd =>
          if (numbers ++ probe_pos.map fun _ => (0 : ℤ)).getD jd.1 0 ≠ 0
          then some (jd.1, i, jd.2) else none))

/-- The flattened probe edge set of `probes_to_graph`. -/
def probes_to_graph {A : Type} [LinearOrderedCommRing A] (useQuery : Bool)
    (positions : List (Vec3 A)) (numbers : List ℤ) (probe_pos : List (Vec3 A))
    (images : List (Vec3 A)) (cutoff : A) : List (ℕ × ℕ × A) :=
  (probes_to_graph_per_probe useQuery positions numbers probe_pos images cutoff).flatten

/-- `AseNeigborListWrapper` (dataset.py lines 130-145): remembers the cutoff
it was built with (`self.cutoff = cutoff`) together with the built neighbor
data. -/
structure AseNeigborListWrapper (A : Type) where
  cutoff : A
  atoms_positions : List (Vec3 A)
  images : List (Vec3 A)

/-- `AseNeigborListWrapper.__init__`. -/
def aseWrapper_init {A : Type} (cutoff : A) (positions images : List (Vec3 A)) :
    AseNeigborListWrapper A :=
  ⟨cutoff, positions, images⟩

/-- `AseNeigborListWrapper.get_neighbors` (dataset.py lines 147-162):
`assert cutoff == self.cutoff` — a failed assertion (raised error) is `none`;
on success the stored neighbor data for atom `i` is returned. -/
def aseWrapper_get_neighbors {A : Type} [LinearOrderedCommRing A]
    (w : AseNeigborListWrapper A) (i : ℕ) (cutoff : A) : Option (List (ℕ × A)) :=
  if cutoff = w.cutoff
  then some (neighbor_query w.atoms_positions w.images cutoff i)
  else none

/-- Modelled from the spec: the fast `asap3.FullNeighborList` variant
(external); per §4.1 both variants have the identical contract and per §7 a
cutoff mismatch between a cached index and a new query is a fatal contract
violation — "the index was built for exactly one cutoff value". -/
structure FullNeighborList (A : Type) where
  cutoff : A
  atoms_positions : List (Vec3 A)
  images : List (Vec3 A)

/-- Modelled from the spec: construction of the fast index. -/
def fullNeighborList_init {A : Type} (cutoff : A) (positions images : List (Vec3 A)) :
    FullNeighborList A :=
  ⟨cutoff, positions, images⟩

/-- Modelled from the spec: `get_neighbors` on the fast index; a query with a
cutoff other than the construction cutoff is a fatal contract violation
(`none`). -/
def fullNeighborList_get_neighbors {A : Type} [LinearOrderedCommRing A]
    (w : FullNeighborList A) (i : ℕ) (cutoff : A) : Option (List (ℕ × A)) :=
  if cutoff = w.cutoff
  then some (neighbor_query w.atoms_positions w.images cutoff i)
  else none

/- ================================================================
   Edge-array assembly with explicit shapes
   (dataset.py lines 201-220 and 294-328)
   ================================================================ -/

/-- A 2-D numpy array with an explicit column width: `data` is the list of
rows; `np.zeros((0, 2))` is `⟨2, []⟩`. -/
structure NDArray (α : Type) where
  cols : ℕ
  data : List (List α)
deriving DecidableEq

/-- `np.concatenate(arrays, axis=0)` on 2-D arrays: an error (`none`) on an
empty input list ("need at least one array to concatenate") or on mismatched
column counts; otherwise the rows are concatenated. -/
def np_concatenate {α : Type} : List (NDArray α) → Option (NDArray α)
  | [] => none
  | a :: rest =>
    if (a :: rest).all (fun b => b.cols = a.cols)
    then some ⟨a.cols, (a :: rest).flatMap (fun b => b.data)⟩
    else none

/-- `np.concatenate(arrays, axis=0)` on 1-D arrays. -/
def np_concatenate1 {α : Type} : List (List α) → Option (List α)
  | [] => none
  | l :: rest => some ((l :: rest).flatten)

/-- `x[:, None]`: a 1-D array viewed as a single-column 2-D array. -/
def colonNone {α : Type} (v : List α) : NDArray α :=
  ⟨1, v.map (fun a => [a])⟩

/-- The per-atom `edges` arrays of `atoms_to_graph` (dataset.py line 365:
`np.stack((neigh_idx, self_index), axis=1)`, an `(m, 2)` integer array per
atom). -/
def atoms_to_graph_edge_arrays {A : Type} [LinearOrderedCommRing A]
    (positions images : List (Vec3 A)) (cutoff : A) : List (NDArray ℕ) :=
  (atoms_to_graph_per_atom positions images cutoff).map
    (fun l => ⟨2, l.map (fun e => [e.1, e.2.1])⟩)

/-- The per-atom `neigh_dist` feature arrays (1-D, dataset.py line 368). -/
def atoms_to_graph_feature_arrays {A : Type} [LinearOrderedCommRing A]
    (positions images : List (Vec3 A)) (cutoff : A) : List (List A) :=
  (atoms_to_graph_per_atom positions images cutoff).map
    (fun l => l.map (fun e => e.2.2))

/-- The per-probe `edges` arrays of `probes_to_graph` (dataset.py line 403). -/
def probes_to_graph_edge_arrays {A : Type} [LinearOrderedCommRing A] (useQuery : Bool)
    (positions : List (Vec3 A)) (numbers : List ℤ) (probe_pos : List (Vec3 A))
    (images : List (Vec3 A)) (cutoff : A) : List (NDArray ℕ) :=
  (probes_to_graph_per_probe useQuery positions numbers probe_pos images cutoff).map
    (fun l => ⟨2, l.map (fun e => [e.1, e.2.1])⟩)

/-- The per-probe feature arrays of `probes_to_graph` (dataset.py line 405). -/
def probes_to_graph_feature_arrays {A : Type} [LinearOrderedCommRing A] (useQuery : Bool)
    (positions : List (Vec3 A)) (numbers : List ℤ) (probe_pos : List (Vec3 A))
    (images : List (Vec3 A)) (cutoff : A) : List (List A) :=
  (probes_to_graph_per_probe useQuery positions numbers probe_pos images cutoff).map
    (fun l => l.map (fun e => e.2.2))

/-- The four edge-array fields of a training-sample graph dict. -/
structure GraphEdgeFields (A : Type) where
  atom_edges : NDArray ℕ
  atom_edges_features : NDArray A
  probe_edges : NDArray ℕ
  probe_edges_features : NDArray A

/-- `atoms_and_probe_sample_to_graph_dict` (dataset.py lines 294-328),
restricted to its four edge-array fields (the node, probe-target and count
fields do not interact with empty-edge handling): builds the per-atom and
per-probe edge lists, applies the `if not probe_edges` placeholder
substitution (lines 307-309: `[np.zeros((0,2))]` / `[np.zeros((0,))]`), and
concatenates each field, the 1-D feature arrays reshaped by `[:, None]`
(lines 313-320). -/
def atoms_and_probe_sample_to_graph_dict {A : Type} [LinearOrderedCommRing A]
    (useQuery : Bool) (positions : List (Vec3 A)) (numbers : List ℤ)
    (probe_pos : List (Vec3 A)) (images : List (Vec3 A)) (cutoff : A) :
    Option (GraphEdgeFields A) :=
  match np_concatenate (atoms_to_graph_edge_arrays positions images cutoff),
      np_concatenate1 (atoms_to_graph_feature_arrays positions images cutoff),
      np_concatenate
        (if (probes_to_graph_edge_arrays useQuery positions numbers probe_pos images
            cutoff).isEmpty
         then [(⟨2, []⟩ : NDArray ℕ)]
         else probes_to_graph_edge_arrays useQuery positions numbers probe_pos images
            cutoff),
      np_concatenate1
        (if (probes_to_graph_edge_arrays useQuery positions numbers probe_pos images
            cutoff).isEmpty
         then [([] : List A)]
         else probes_to_graph_feature_arrays useQuery positions numbers probe_pos images
            cutoff) with
  | some ae, some af, some pe, some pf => some ⟨ae, colonNone af, pe, colonNone pf⟩
  | _, _, _, _ => none

/-- `DensityGridIterator.static_get_slice` (dataset.py lines 201-220): the
slice's probe positions are the grid positions at the slice's flat indices
(`meshgrid[pos_index]`, with the grid modelled as a map from flat row-major
index to position); the probe edges get the same `if not probe_edges`
placeholder substitution (lines 209-211) before concatenation; the result
carries `num_probe_edges = probe_edges.shape[0]` and
`num_probes = len(flat_index)` (lines 217-218). -/
def static_get_slice {A : Type} [LinearOrderedCommRing A]
    (slice_index probe_count total : ℕ) (grid : ℕ → Vec3 A) (useQuery : Bool)
    (positions : List (Vec3 A)) (numbers : List ℤ) (images : List (Vec3 A))
    (cutoff : A) : Option (NDArray ℕ × NDArray A × ℕ × ℕ) :=
  match np_concatenate
        (if (probes_to_graph_edge_arrays useQuery positions numbers
            ((slice_flat_index slice_index probe_count total).map grid) images
            cutoff).isEmpty
         then [(⟨2, []⟩ : NDArray ℕ)]
         else probes_to_graph_edge_arrays useQuery positions numbers
            ((slice_flat_index slice_index probe_count total).map grid) images cutoff),
      np_concatenate1
        (if (probes_to_graph_edge_arrays useQuery positions numbers
            ((slice_flat_index slice_index probe_count total).map grid) images
            cutoff).isEmpty
         then [([] : List A)]
         else probes_to_graph_feature_arrays useQuery positions numbers
            ((slice_flat_index slice_index probe_count total).map grid) images
            cutoff) with
  | some pe, some pf =>
    some (pe, colonNone pf, pe.data.length,
      (slice_flat_index slice_index probe_count total).length)
  | _, _ => none

/- ================================================================
   Batch collation: `collate_list_of_dicts` (dataset.py lines 409-420)
   ================================================================ -/

/-- The Python dict read `dic[k]`, the dict modelled as an association list;
`none` is a raised `KeyError`. -/
def lookupD {V : Type} (k : String) : List (String × V) → Option V
  | [] => none
  | (k0, v) :: rest => if k = k0 then some v else lookupD k rest

/-- The keys of a dict, in iteration order. -/
def keysOf {V : Type} (d : List (String × V)) : List String := d.map Prod.fst

/-- `[dic[k] for dic in list_of_dicts]` (dataset.py line 411): `none` as soon
as some dict is missing the key. -/
def gatherField {V : Type} (k : String) : List (List (String × V)) → Option (List V)
  | [] => some []
  | d :: rest =>
    match lookupD k d, gatherField k rest with
    | some v, some vs => some (v :: vs)
    | _, _ => none

/-- The comprehension over a key list combined with the per-field
`pad_and_stack` application (dataset.py lines 411 and 419).  `pad_and_stack`
lives in `deepdft/layer.py`, which is not among the analysed sources, so it
is kept as an arbitrary function `pad` from the list of one field's
per-graph tensors to the batched tensor; `pin_memory` is the identity on
values. -/
def collateKeys {V : Type} (pad : List V → V) (ds : List (List (String × V))) :
    List String → Option (List (String × V))
  | [] => some []
  | k :: ks =>
    match gatherField k ds, collateKeys pad ds ks with
    | some vs, some rest => some ((k, pad vs) :: rest)
    | _, _ => none

/-- `collate_list_of_dicts` (dataset.py lines 409-420): the field names are
taken from the first dict (`for k in list_of_dicts[0]`, line 411); an empty
batch raises `IndexError` (`none`). -/
def collate_list_of_dicts {V : Type} (pad : List V → V) :
    List (List (String × V)) → Option (List (String × V))
  | [] => none
  | d :: rest => collateKeys pad (d :: rest) (keysOf d)

/-- A per-sample training graph as the spec's Batch description (§3) sees
it; tensors are integer-valued 2-D arrays (`List (List ℤ)`, 1-D tensors as
column lists). -/
structure SpecGraph where
  nodes : List ℤ
  atom_edges : List (List ℤ)
  atom_edges_features : List (List ℤ)
  probe_edges : List (List ℤ)
  probe_edges_features : List (List ℤ)
  probe_target : List ℤ

/-- A 1-D tensor as a 2-D column. -/
def tensor1 (v : List ℤ) : List (List ℤ) := v.map (fun a => [a])

/-- A 0-D (scalar) tensor. -/
def scalarT (n : ℕ) : List (List ℤ) := [[(n : ℤ)]]

/-- The full named-field dict of one training graph
(dataset.py lines 311-326; the batch fields of spec §6). -/
def graphToDict (g : SpecGraph) : List (String × List (List ℤ)) :=
  [("nodes", tensor1 g.nodes),
   ("atom_edges", g.atom_edges),
   ("atom_edges_features", g.atom_edges_features),
   ("probe_edges", g.probe_edges),
   ("probe_edges_features", g.probe_edges_features),
   ("probe_target", tensor1 g.probe_target),
   ("num_nodes", scalarT g.nodes.length),
   ("num_atom_edges", scalarT g.atom_edges.length),
   ("num_probe_edges", scalarT g.probe_edges.length),
   ("num_probes", scalarT g.probe_target.length)]

/-- Follows the spec's words (the refinement side of C1, deliberately NOT
  taken from the source): "concatenated along the row axis … edge indices of
each member's local graph offset by the cumulative node count of all members
before it", accumulating the offset. -/
def spec_batch_atom_edges_from (offset : ℤ) : List SpecGraph → List (List ℤ)
  | [] => []
  | g :: rest =>
    g.atom_edges.map (fun row => row.map (fun a => a + offset)) ++
      spec_batch_atom_edges_from (offset + g.nodes.length) rest

/-- Follows the spec's words: the batched `atom_edges` field C1 prescribes. -/
def spec_batch_atom_edges (gs : List SpecGraph) : List (List ℤ) :=
  spec_batch_atom_edges_from 0 gs

/-- C1 as stated, specialized to its `atom_edges` conjunct (a consequence of
the claim, so refuting it refutes the claim), for a candidate `pad_and_stack`
function `pad`: collating any non-empty batch of training graphs yields an
`atom_edges` field equal to the spec's offset row-concatenation. -/
def ClaimC1 (pad : List (List (List ℤ)) → List (List ℤ)) : Prop :=
  ∀ gs : List SpecGraph, gs ≠ [] →
    ∃ out, collate_list_of_dicts pad (gs.map graphToDict) = some out ∧
      lookupD "atom_edges" out = some (spec_batch_atom_edges gs)

/-- C5 as stated: whenever some input graph is missing a field that some
graph of the batch exposes, collation fails fast (for any `pad_and_stack`). -/
def ClaimC5 : Prop :=
  ∀ (pad : List (List (List ℤ)) → List (List ℤ))
    (ds : List (List (String × List (List ℤ)))),
    ds ≠ [] →
    (∃ d ∈ ds, ∃ k, (∃ d2 ∈ ds, k ∈ keysOf d2) ∧ k ∉ keysOf d) →
    collate_list_of_dicts pad ds = none

/-- A one-node graph: nodes `[5]`, one local atom edge `(0,0)`. -/
def exGraphA : SpecGraph := ⟨[5], [[0, 0]], [[7]], [], [], []⟩

/-- As `exGraphA` but with two nodes and the same edge list. -/
def exGraphA2 : SpecGraph := ⟨[5, 5], [[0, 0]], [[7]], [], [], []⟩

/-- A second one-node graph with one local atom edge `(0,0)`. -/
def exGraphB : SpecGraph := ⟨[9], [[0, 0]], [[7]], [], [], []⟩

/-- A dict exposing only field "a". -/
def exDictSmall : List (String × List (List ℤ)) := [("a", [[1]])]

/-- A dict exposing fields "a" and "b". -/
def exDictBig : List (String × List (List ℤ)) := [("a", [[1]]), ("b", [[2]])]

/- ================================================================
   RotatingPoolData (dataset.py lines 25-72)
   ================================================================ -/

/-- The synchronous pool fill in `RotatingPoolData.__init__` (dataset.py
lines 49-54): `self.data_pool = [self.parent_data[i] for i in
self.rng.integers(0, high=len(self.parent_data), size=self.pool_size)]`,
with `idxs` the drawn index list. -/
def pool_init {α : Type} (parent : List α) (dflt : α) (idxs : List ℕ) : List α :=
  idxs.map (fun i => parent.getD i dflt)

/-- The states `data_pool` can reach: the constructor fills all `pool_size`
slots before the loader process and transfer thread start (lines 49-66);
afterwards each transfer step (lines 31-34) overwrites one slot with a
freshly loaded parent sample `dataset[index]` put by the worker (lines
25-28).  The overwritten slot is left arbitrary — the transfer thread
actually cycles `0, 1, …, pool_size-1`, a special case. -/
inductive PoolReachable {α : Type} (parent : List α) (dflt : α) (n : ℕ) :
    List α → Prop
  | init (idxs : List ℕ) (hlen : idxs.length = n)
      (hidx : ∀ i ∈ idxs, i < parent.length) :
      PoolReachable parent dflt n (pool_init parent dflt idxs)
  | step (pool : List α) (slot j : ℕ) (hj : j < parent.length)
      (hpool : PoolReachable parent dflt n pool) :
      PoolReachable parent dflt n (pool.set slot (parent.getD j dflt))

/- ================================================================
   Theorems
   ================================================================ -/

theorem mem_range'_sub (s m i : ℕ) : i ∈ List.range' s (m - s) ↔ s ≤ i ∧ i < m := by
  rw [List.mem_range'_1]
  omega

theorem slices_flatMap_range (total pc : ℕ) :
    ∀ s : ℕ, (List.range s).flatMap (fun k => slice_flat_index k pc total)
      = List.range' 0 (min (s * pc) total) := by
  intro s
  induction s with
  | zero => simp
  | succ s ih =>
    rw [List.range_succ, List.flatMap_append, ih]
    simp only [List.flatMap_cons, List.flatMap_nil, List.append_nil]
    rw [slice_flat_index]
    have hab : (s + 1) * pc = s * pc + pc := by ring
    rcases le_or_lt total (s * pc) with h | h
    · have e1 : min (s * pc) total = total := Nat.min_eq_right h
      have e2 : min ((s + 1) * pc) total = total := by
        refine Nat.min_eq_right (le_trans h ?_)
        rw [hab]; exact Nat.le_add_right _ _
      have e3 : total - s * pc = 0 := Nat.sub_eq_zero_of_le h
      rw [e1, e2, e3]
      simp
    · have e1 : min (s * pc) total = s * pc := Nat.min_eq_left (le_of_lt h)
      rw [e1]
      have happ := List.range'_append 0 (s * pc)
        ((min ((s + 1) * pc) total) - s * pc) 1
      simp only [Nat.zero_add, Nat.one_mul] at happ
      rw [happ]
      congr 1
      have hle : s * pc ≤ min ((s + 1) * pc) total := by
        refine le_min ?_ (le_of_lt h)
        rw [hab]; exact Nat.le_add_right _ _
      omega

theorem num_slices_mul_bounds (total pc : ℕ) (hpc : 0 < pc) :
    total ≤ num_slices total pc * pc ∧ num_slices total pc * pc < total + pc := by
  have h1 := Nat.div_add_mod (total + pc - 1) pc
  have h2 : (total + pc - 1) % pc < pc := Nat.mod_lt _ hpc
  have h3 : num_slices total pc * pc = pc * ((total + pc - 1) / pc) := by
    rw [num_slices]; ring
  rw [h3]
  generalize hX : pc * ((total + pc - 1) / pc) = X at h1 ⊢
  generalize hr : (total + pc - 1) % pc = r at h1 h2
  omega

/-- C3: for a grid of shape `(nx, ny, nz)` and positive `probe_count`,
slice `k` covers exactly the flat indices
`[k*probe_count, min((k+1)*probe_count, nx*ny*nz))`, `num_slices` is the
ceiling of `total / probe_count` (characterized by the two multiplication
bounds), and concatenating the slices' flat indices in slice order reproduces
`0 .. nx*ny*nz - 1` with no gaps and no overlaps. -/
theorem grid_slices_partition (nx ny nz probe_count : ℕ) (hpc : 0 < probe_count) :
    (∀ k i, i ∈ slice_flat_index k probe_count (nx * ny * nz) ↔
        k * probe_count ≤ i ∧ i < min ((k + 1) * probe_count) (nx * ny * nz)) ∧
    (nx * ny * nz ≤ num_slices (nx * ny * nz) probe_count * probe_count ∧
      num_slices (nx * ny * nz) probe_count * probe_count < nx * ny * nz + probe_count) ∧
    (List.range (num_slices (nx * ny * nz) probe_count)).flatMap
        (fun k => slice_flat_index k probe_count (nx * ny * nz))
      = List.range (nx * ny * nz) := by
  refine ⟨?_, num_slices_mul_bounds _ _ hpc, ?_⟩
  · intro k i
    rw [slice_flat_index, mem_range'_sub]
  · rw [slices_flatMap_range]
    have hbound := (num_slices_mul_bounds (nx * ny * nz) probe_count hpc).1
    rw [Nat.min_eq_right hbound, List.range_eq_range']

/-- C3 witness: the theorem instantiated at a 2×2×1 grid with 3 probes per
slice. -/
theorem grid_slices_partition_witness :
    0 < 3 ∧
    ((∀ k i, i ∈ slice_flat_index k 3 (2 * 2 * 1) ↔
        k * 3 ≤ i ∧ i < min ((k + 1) * 3) (2 * 2 * 1)) ∧
    (2 * 2 * 1 ≤ num_slices (2 * 2 * 1) 3 * 3 ∧
      num_slices (2 * 2 * 1) 3 * 3 < 2 * 2 * 1 + 3) ∧
    (List.range (num_slices (2 * 2 * 1) 3)).flatMap
        (fun k => slice_flat_index k 3 (2 * 2 * 1))
      = List.range (2 * 2 * 1)) :=
  ⟨by decide, grid_slices_partition 2 2 1 3 (by decide)⟩

/-- C4: the fallback neighbor index is selected exactly when some lattice
vector has length ≤ 1e-4, or some periodicity flag is set and some lattice
vector is shorter than the cutoff; otherwise the fast index is selected; and
the probe-query fallback path of `probes_to_graph` applies the same selection
predicate as `atoms_to_graph`. -/
theorem neighborlist_selection (cell_lengths : List ℚ) (pbc : List Bool) (cutoff : ℚ) :
    (atoms_to_graph_neighborlist cell_lengths pbc cutoff = .fallback ↔
      ((∃ l ∈ cell_lengths, l ≤ 1/10000) ∨
        ((∃ b ∈ pbc, b = true) ∧ ∃ l ∈ cell_lengths, l < cutoff))) ∧
    (atoms_to_graph_neighborlist cell_lengths pbc cutoff = .fast ↔
      ¬ ((∃ l ∈ cell_lengths, l ≤ 1/10000) ∨
        ((∃ b ∈ pbc, b = true) ∧ ∃ l ∈ cell_lengths, l < cutoff))) ∧
    probes_to_graph_neighborlist cell_lengths pbc cutoff
      = atoms_to_graph_neighborlist cell_lengths pbc cutoff := by
  have hcond : atoms_to_graph_use_fallback cell_lengths pbc cutoff = true ↔
      ((∃ l ∈ cell_lengths, l ≤ 1/10000) ∨
        ((∃ b ∈ pbc, b = true) ∧ ∃ l ∈ cell_lengths, l < cutoff)) := by
    simp [atoms_to_graph_use_fallback, List.any_eq_true]
  refine ⟨?_, ?_, rfl⟩
  · rw [← hcond, atoms_to_graph_neighborlist]
    rcases h : atoms_to_graph_use_fallback cell_lengths pbc cutoff <;> simp [h]
  · rw [← hcond, atoms_to_graph_neighborlist]
    rcases h : atoms_to_graph_use_fallback cell_lengths pbc cutoff <;> simp [h]

theorem dictFind_eq_none {R : Type} (t : ℕ) (l : List (ℕ × R)) :
    dictFind t l = none ↔ t ∉ l.map Prod.fst := by
  induction l with
  | nil => simp [dictFind]
  | cons e rest ih =>
    obtain ⟨i, v⟩ := e
    by_cases h : i = t
    · subst h
      simp [dictFind]
    · rw [dictFind, if_neg h, ih]
      simp only [List.map_cons, List.mem_cons]
      constructor
      · intro hnot hor
        rcases hor with h1 | h1
        · exact h h1.symm
        · exact hnot h1
      · intro hnot hmem
        exact hnot (Or.inr hmem)

theorem dictFind_some_mem {R : Type} (t : ℕ) (l : List (ℕ × R)) (r : R)
    (h : dictFind t l = some r) : (t, r) ∈ l := by
  induction l with
  | nil => simp [dictFind] at h
  | cons e rest ih =>
    obtain ⟨i, v⟩ := e
    by_cases hi : i = t
    · simp [dictFind, hi] at h
      simp [hi, h]
    · simp [dictFind, hi] at h
      exact List.mem_cons_of_mem _ (ih h)

theorem dictPop_subset {R : Type} (t : ℕ) (l : List (ℕ × R)) :
    ∀ e ∈ dictPop t l, e ∈ l := by
  induction l with
  | nil => intro e he; simp [dictPop] at he
  | cons p rest ih =>
    obtain ⟨i, v⟩ := p
    intro e he
    rw [dictPop] at he
    by_cases hi : i = t
    · rw [if_pos hi] at he
      exact List.mem_cons_of_mem _ he
    · rw [if_neg hi] at he
      rcases List.mem_cons.mp he with h1 | h1
      · exact h1 ▸ List.mem_cons_self _ _
      · exact List.mem_cons_of_mem _ (ih e h1)

theorem keys_dictPop {R : Type} (t : ℕ) (l : List (ℕ × R)) :
    (dictPop t l).map Prod.fst = (l.map Prod.fst).erase t := by
  induction l with
  | nil => simp [dictPop]
  | cons p rest ih =>
    obtain ⟨i, v⟩ := p
    by_cases hi : i = t
    · subst hi
      simp [dictPop, List.erase_cons_head]
    · rw [dictPop]
      simp only [if_neg hi, List.map_cons, ih]
      rw [List.erase_cons_tail]
      simp [hi]

theorem retrieve_slice_spec {R : Type} (t : ℕ) :
    ∀ (stream pending : List (ℕ × R)),
      ((pending ++ stream).map Prod.fst).Nodup →
      t ∈ (pending ++ stream).map Prod.fst →
      ∃ r p' s', retrieve_slice t pending stream = some (r, p', s') ∧
        (t, r) ∈ pending ++ stream ∧
        (∀ e ∈ p' ++ s', e ∈ pending ++ stream) ∧
        ((p' ++ s').map Prod.fst).Perm (((pending ++ stream).map Prod.fst).erase t) := by
  intro stream
  induction stream with
  | nil =>
    intro pending hnodup hmem
    rw [List.append_nil] at hnodup hmem
    rcases hfind : dictFind t pending with _ | r
    · exact absurd hmem ((dictFind_eq_none t pending).mp hfind)
    · refine ⟨r, dictPop t pending, [], ?_, ?_, ?_, ?_⟩
      · rw [retrieve_slice, hfind]
      · rw [List.append_nil]
        exact dictFind_some_mem t pending r hfind
      · intro e he
        rw [List.append_nil] at he ⊢
        exact dictPop_subset t pending e he
      · rw [List.append_nil, List.append_nil, keys_dictPop]
  | cons q rest ih =>
    intro pending hnodup hmem
    obtain ⟨i, v⟩ := q
    rcases hfind : dictFind t pending with _ | r
    · have hperm : ((i, v) :: pending ++ rest).Perm (pending ++ (i, v) :: rest) := by
        simpa using List.perm_middle.symm
      have hkeys : (((i, v) :: pending ++ rest).map Prod.fst).Perm
          ((pending ++ (i, v) :: rest).map Prod.fst) := hperm.map _
      obtain ⟨r, p', s', hret, hmem', hsub, hkey⟩ :=
        ih ((i, v) :: pending) (hkeys.nodup_iff.mpr hnodup)
          (hkeys.mem_iff.mpr hmem)
      refine ⟨r, p', s', ?_, ?_, ?_, ?_⟩
      · rw [retrieve_slice, hfind]
        exact hret
      · exact hperm.subset hmem'
      · intro e he
        exact hperm.subset (hsub e he)
      · exact hkey.trans (hkeys.erase t)
    · refine ⟨r, dictPop t pending, (i, v) :: rest, ?_, ?_, ?_, ?_⟩
      · rw [retrieve_slice, hfind]
      · exact List.mem_append_left _ (dictFind_some_mem t pending r hfind)
      · intro e he
        rcases List.mem_append.mp he with h | h
        · exact List.mem_append_left _ (dictPop_subset t pending e h)
        · exact List.mem_append_right _ h
      · have htp : t ∈ pending.map Prod.fst := by
          have := dictFind_some_mem t pending r hfind
          exact List.mem_map.mpr ⟨(t, r), this, rfl⟩
        rw [List.map_append, List.map_append, keys_dictPop,
          List.erase_append_left _ htp]

theorem grid_iterator_run_spec {R : Type} (res : ℕ → R) :
    ∀ (targets : List ℕ) (pending stream : List (ℕ × R)),
      (∀ e ∈ pending ++ stream, e.2 = res e.1) →
      ((pending ++ stream).map Prod.fst).Nodup →
      ((pending ++ stream).map Prod.fst).Perm targets →
      grid_iterator_run targets pending stream = some (targets.map res) := by
  intro targets
  induction targets with
  | nil =>
    intro pending stream _ _ _
    rfl
  | cons t ts ih =>
    intro pending stream hval hnodup hperm
    have hmem : t ∈ (pending ++ stream).map Prod.fst :=
      hperm.mem_iff.mpr (List.mem_cons_self t ts)
    obtain ⟨r, p', s', hret, hmemtr, hsub, hkey⟩ :=
      retrieve_slice_spec t stream pending hnodup hmem
    have hr : r = res t := hval (t, r) hmemtr
    have hval' : ∀ e ∈ p' ++ s', e.2 = res e.1 := fun e he => hval e (hsub e he)
    have hnodup' : ((p' ++ s').map Prod.fst).Nodup :=
      hkey.nodup_iff.mpr (hnodup.erase t)
    have hperm' : ((p' ++ s').map Prod.fst).Perm ts := by
      refine hkey.trans ?_
      have := hperm.erase t
      rwa [List.erase_cons_head] at this
    rw [grid_iterator_run, hret]
    show (grid_iterator_run ts p' s').map (fun l => r :: l) = some ((t :: ts).map res)
    rw [ih p' s' hval' hnodup' hperm', hr]
    rfl

/-- C2: for every slice count `n` and every arrival order of worker results
on the result queue that is a permutation of all slice indices (slice `i`
arriving with its result `res i`), the consumer loop of
`DensityGridIterator.__next__` yields the per-slice results in strictly
increasing slice-index order `res 0, res 1, …, res (n-1)`, buffering
out-of-order arrivals in the `finished_slices` map and evicting each entry as
it is delivered. -/
theorem grid_iterator_ordered_delivery {R : Type} (n : ℕ) (res : ℕ → R)
    (arrival : List ℕ) (hperm : arrival.Perm (List.range n)) :
    grid_iterator_output n (arrival.map fun i => (i, res i))
      = some ((List.range n).map res) := by
  have hkeys : ((arrival.map fun i => (i, res i)).map Prod.fst) = arrival := by
    rw [List.map_map]
    exact List.map_id arrival
  rw [grid_iterator_output]
  apply grid_iterator_run_spec
  · intro e he
    rw [List.nil_append] at he
    obtain ⟨i, _, hi⟩ := List.mem_map.mp he
    rw [← hi]
  · rw [List.nil_append, hkeys]
    exact hperm.nodup_iff.mpr (List.nodup_range n)
  · rw [List.nil_append, hkeys]
    exact hperm

/-- C2 witness: three slices delivered by the workers in the order 2, 0, 1
are consumed in the order 0, 1, 2. -/
theorem grid_iterator_ordered_delivery_witness :
    ([2, 0, 1] : List ℕ).Perm (List.range 3) ∧
    grid_iterator_output 3 (([2, 0, 1] : List ℕ).map fun i => (i, 10 * i))
      = some ((List.range 3).map fun i => 10 * i) :=
  ⟨by decide, grid_iterator_ordered_delivery 3 (fun i => 10 * i) [2, 0, 1] (by decide)⟩

/-- C4 witness: the theorem instantiated at a unit cell of lengths
`[1, 1, 1]`, periodicity `[true, true, true]` and cutoff `5`. -/
theorem neighborlist_selection_witness :
    (atoms_to_graph_neighborlist [1, 1, 1] [true, true, true] 5 = .fallback ↔
      ((∃ l ∈ ([1, 1, 1] : List ℚ), l ≤ 1/10000) ∨
        ((∃ b ∈ [true, true, true], b = true) ∧ ∃ l ∈ ([1, 1, 1] : List ℚ), l < 5))) ∧
    (atoms_to_graph_neighborlist [1, 1, 1] [true, true, true] 5 = .fast ↔
      ¬ ((∃ l ∈ ([1, 1, 1] : List ℚ), l ≤ 1/10000) ∨
        ((∃ b ∈ [true, true, true], b = true) ∧ ∃ l ∈ ([1, 1, 1] : List ℚ), l < 5))) ∧
    probes_to_graph_neighborlist [1, 1, 1] [true, true, true] 5
      = atoms_to_graph_neighborlist [1, 1, 1] [true, true, true] 5 :=
  neighborlist_selection [1, 1, 1] [true, true, true] 5

theorem mem_neighbor_query {A : Type} [LinearOrderedCommRing A]
    (positions images : List (Vec3 A)) (cutoff : A) (i j : ℕ) (d2 : A) :
    (j, d2) ∈ neighbor_query positions images cutoff i ↔
      (j < positions.length ∧ j ≠ i ∧ ∃ t ∈ images,
        dist2 (vadd (positions.getD j vzero) t) (positions.getD i vzero) = d2 ∧
        d2 < cutoff ^ 2) := by
  rw [neighbor_query]
  simp only [List.mem_flatMap, List.mem_filter, List.mem_range, List.mem_filterMap,
    decide_eq_true_eq]
  constructor
  · rintro ⟨a, ⟨ha, hne⟩, t, ht, hif⟩
    by_cases hc : dist2 (vadd (positions.getD a vzero) t) (positions.getD i vzero) < cutoff ^ 2
    · rw [if_pos hc, Option.some.injEq, Prod.mk.injEq] at hif
      obtain ⟨h1, h2⟩ := hif
      subst h1
      subst h2
      exact ⟨ha, hne, t, ht, rfl, hc⟩
    · rw [if_neg hc] at hif
      exact absurd hif (by simp)
  · rintro ⟨hj, hne, t, ht, hd, hlt⟩
    refine ⟨j, ⟨hj, hne⟩, t, ht, ?_⟩
    rw [if_pos (hd ▸ hlt), Option.some.injEq, Prod.mk.injEq]
    exact ⟨rfl, hd⟩

theorem mem_querypoint_neighbors {A : Type} [LinearOrderedCommRing A]
    (positions images : List (Vec3 A)) (cutoff : A) (p : Vec3 A) (j : ℕ) (d2 : A) :
    (j, d2) ∈ querypoint_neighbors positions images cutoff p ↔
      (j < positions.length ∧ ∃ t ∈ images,
        dist2 (vadd (positions.getD j vzero) t) p = d2 ∧ d2 < cutoff ^ 2) := by
  rw [querypoint_neighbors]
  simp only [List.mem_flatMap, List.mem_range, List.mem_filterMap]
  constructor
  · rintro ⟨a, ha, t, ht, hif⟩
    by_cases hc : dist2 (vadd (positions.getD a vzero) t) p < cutoff ^ 2
    · rw [if_pos hc, Option.some.injEq, Prod.mk.injEq] at hif
      obtain ⟨h1, h2⟩ := hif
      subst h1
      subst h2
      exact ⟨ha, t, ht, rfl, hc⟩
    · rw [if_neg hc] at hif
      exact absurd hif (by simp)
  · rintro ⟨hj, t, ht, hd, hlt⟩
    refine ⟨j, hj, t, ht, ?_⟩
    rw [if_pos (hd ▸ hlt), Option.some.injEq, Prod.mk.injEq]
    exact ⟨rfl, hd⟩

theorem mem_atoms_to_graph {A : Type} [LinearOrderedCommRing A]
    (positions images : List (Vec3 A)) (cutoff : A) (j i : ℕ) (d2 : A) :
    (j, i, d2) ∈ atoms_to_graph positions images cutoff ↔
      (i < positions.length ∧ (j, d2) ∈ neighbor_query positions images cutoff i) := by
  rw [atoms_to_graph, atoms_to_graph_per_atom]
  simp only [List.mem_flatten, List.mem_map, List.mem_range]
  constructor
  · rintro ⟨l, ⟨a, ha, rfl⟩, hmem⟩
    obtain ⟨jd, hjd, heq⟩ := List.mem_map.mp hmem
    rw [Prod.mk.injEq, Prod.mk.injEq] at heq
    obtain ⟨h1, h2, h3⟩ := heq
    subst h2
    have hjd' : jd = (j, d2) := by
      rw [Prod.ext_iff]
      exact ⟨h1, h3⟩
    rw [hjd'] at hjd
    exact ⟨ha, hjd⟩
  · rintro ⟨hi, hq⟩
    exact ⟨_, ⟨i, hi, rfl⟩, List.mem_map.mpr ⟨(j, d2), hq, rfl⟩⟩

/-- C6: for every structure (any list of positions, any image-translation set
closed under negation — `[vzero]` for a non-periodic structure), the atom edge
set built by `atoms_to_graph` is symmetric — for every directed edge
`(i → j)` with squared-distance feature `d2` the directed edge `(j → i)`
with the same feature exists — and no self-edge `(i, i, _)` is produced. -/
theorem atom_edges_symmetric {A : Type} [LinearOrderedCommRing A]
    (positions images : List (Vec3 A)) (cutoff : A)
    (himg : ∀ t ∈ images, vneg t ∈ images) :
    (∀ e ∈ atoms_to_graph positions images cutoff,
        (e.2.1, e.1, e.2.2) ∈ atoms_to_graph positions images cutoff) ∧
    (∀ i d2, (i, i, d2) ∉ atoms_to_graph positions images cutoff) := by
  constructor
  · rintro ⟨j, i, d2⟩ he
    rw [mem_atoms_to_graph] at he
    obtain ⟨hi, hq⟩ := he
    rw [mem_neighbor_query] at hq
    obtain ⟨hj, hne, t, ht, hd, hlt⟩ := hq
    show (i, j, d2) ∈ atoms_to_graph positions images cutoff
    rw [mem_atoms_to_graph]
    refine ⟨hj, ?_⟩
    rw [mem_neighbor_query]
    refine ⟨hi, fun h => hne h.symm, vneg t, himg t ht, ?_, hlt⟩
    rw [← hd]
    simp only [dist2, vadd, vneg]
    ring
  · intro i d2 hmem
    rw [mem_atoms_to_graph, mem_neighbor_query] at hmem
    exact hmem.2.2.1 rfl

/-- C6 witness: a two-atom non-periodic structure, atoms at distance 1,
cutoff 2. -/
theorem atom_edges_symmetric_witness :
    (∀ t ∈ ([vzero] : List (Vec3 ℤ)), vneg t ∈ [vzero]) ∧
    ((∀ e ∈ atoms_to_graph [(⟨0, 0, 0⟩ : Vec3 ℤ), ⟨1, 0, 0⟩] [vzero] 2,
        (e.2.1, e.1, e.2.2) ∈ atoms_to_graph [(⟨0, 0, 0⟩ : Vec3 ℤ), ⟨1, 0, 0⟩] [vzero] 2) ∧
    (∀ i d2, (i, i, d2) ∉ atoms_to_graph [(⟨0, 0, 0⟩ : Vec3 ℤ), ⟨1, 0, 0⟩] [vzero] 2)) :=
  ⟨by decide, atom_edges_symmetric [⟨0, 0, 0⟩, ⟨1, 0, 0⟩] [vzero] 2 (by decide)⟩

theorem getD_map_zero {α : Type} (l : List α) (k : ℕ) :
    (l.map fun _ => (0 : ℤ)).getD k 0 = 0 := by
  rw [List.getD_eq_getElem?_getD, List.getElem?_map]
  cases l[k]? <;> rfl

/-- C7: every edge emitted by `probes_to_graph` — on the fast querypoint
branch as well as on the pseudo-atom fallback branch — connects an atom to a
probe: its first endpoint is an atom index (`< len(atoms)`) and its second
endpoint is the probe-local index (`< num_probes`), not offset into the atom
array; in particular no probe–probe edge is ever produced. -/
theorem probe_edges_are_atom_probe {A : Type} [LinearOrderedCommRing A]
    (useQuery : Bool) (positions : List (Vec3 A)) (numbers : List ℤ)
    (probe_pos images : List (Vec3 A)) (cutoff : A)
    (hlen : numbers.length = positions.length) :
    ∀ e ∈ probes_to_graph useQuery positions numbers probe_pos images cutoff,
      e.1 < positions.length ∧ e.2.1 < probe_pos.length := by
  intro e he
  rw [probes_to_graph] at he
  obtain ⟨l, hl, hel⟩ := List.mem_flatten.mp he
  cases useQuery with
  | true =>
    rw [probes_to_graph_per_probe, if_pos rfl] at hl
    obtain ⟨i, hi, rfl⟩ := List.mem_map.mp hl
    rw [List.mem_range] at hi
    obtain ⟨jd, hjd, hif⟩ := List.mem_filterMap.mp hel
    by_cases hc : numbers.getD jd.1 0 ≠ 0
    · rw [if_pos hc, Option.some.injEq] at hif
      obtain ⟨j, d2⟩ := jd
      rw [mem_querypoint_neighbors] at hjd
      rw [← hif]
      exact ⟨hjd.1, hi⟩
    · rw [if_neg hc] at hif
      exact absurd hif (by simp)
  | false =>
    rw [probes_to_graph_per_probe] at hl
    rw [if_neg (by simp)] at hl
    obtain ⟨i, hi, rfl⟩ := List.mem_map.mp hl
    rw [List.mem_range] at hi
    obtain ⟨jd, hjd, hif⟩ := List.mem_filterMap.mp hel
    by_cases hc : (numbers ++ probe_pos.map fun _ => (0 : ℤ)).getD jd.1 0 ≠ 0
    · rw [if_pos hc, Option.some.injEq] at hif
      obtain ⟨j, d2⟩ := jd
      have hjlt : j < positions.length := by
        by_contra hge
        push_neg at hge
        rw [List.getD_append_right _ _ _ _ (hlen ▸ hge), hlen, getD_map_zero] at hc
        exact hc rfl
      rw [← hif]
      exact ⟨hjlt, hi⟩
    · rw [if_neg hc] at hif
      exact absurd hif (by simp)

/-- C7 witness: one atom at the origin (atomic number 1), one probe at
distance 1, cutoff 2, fallback branch. -/
theorem probe_edges_are_atom_probe_witness :
    ([(1 : ℤ)].length = [(⟨0, 0, 0⟩ : Vec3 ℤ)].length) ∧
    (∀ e ∈ probes_to_graph false [(⟨0, 0, 0⟩ : Vec3 ℤ)] [1] [⟨1, 0, 0⟩] [vzero] 2,
      e.1 < [(⟨0, 0, 0⟩ : Vec3 ℤ)].length ∧ e.2.1 < [(⟨1, 0, 0⟩ : Vec3 ℤ)].length) :=
  ⟨by decide,
   probe_edges_are_atom_probe false [⟨0, 0, 0⟩] [1] [⟨1, 0, 0⟩] [vzero] 2 (by decide)⟩

/-- C9: for a neighbor index built with cutoff `c` — either variant —
`get_neighbors` with cutoff `c'` succeeds exactly when `c' = c`: a mismatched
cutoff is a fatal contract violation (the failed assertion is modelled as
`none`) and the matching cutoff always succeeds. -/
theorem neighborlist_cutoff_contract {A : Type} [LinearOrderedCommRing A]
    (c c' : A) (positions images : List (Vec3 A)) (i : ℕ) :
    ((aseWrapper_get_neighbors (aseWrapper_init c positions images) i c').isSome ↔ c' = c) ∧
    ((fullNeighborList_get_neighbors (fullNeighborList_init c positions images) i c').isSome
      ↔ c' = c) := by
  constructor
  · rw [aseWrapper_get_neighbors, aseWrapper_init]
    by_cases h : c' = c <;> simp [h]
  · rw [fullNeighborList_get_neighbors, fullNeighborList_init]
    by_cases h : c' = c <;> simp [h]

theorem np_concatenate_eq {α : Type} (l : List (NDArray α)) (c : ℕ) (hne : l ≠ [])
    (hc : ∀ a ∈ l, a.cols = c) :
    np_concatenate l = some ⟨c, l.flatMap (fun b => b.data)⟩ := by
  cases l with
  | nil => exact absurd rfl hne
  | cons a rest =>
    have hac : a.cols = c := hc a (List.mem_cons_self a rest)
    have hall : (a :: rest).all (fun b => decide (b.cols = a.cols)) = true := by
      rw [List.all_eq_true]
      intro b hb
      rw [decide_eq_true_eq, hc b hb, hac]
    rw [np_concatenate, if_pos hall, hac]

theorem np_concatenate1_eq {α : Type} (l : List (List α)) (hne : l ≠ []) :
    np_concatenate1 l = some l.flatten := by
  cases l with
  | nil => exact absurd rfl hne
  | cons a rest => rw [np_concatenate1]

theorem probe_edge_concat {A : Type} [LinearOrderedCommRing A] (useQuery : Bool)
    (positions : List (Vec3 A)) (numbers : List ℤ) (probe_pos images : List (Vec3 A))
    (cutoff : A) :
    ∃ pe pf,
      np_concatenate
        (if (probes_to_graph_edge_arrays useQuery positions numbers probe_pos images
            cutoff).isEmpty
         then [(⟨2, []⟩ : NDArray ℕ)]
         else probes_to_graph_edge_arrays useQuery positions numbers probe_pos images
            cutoff) = some pe ∧
      np_concatenate1
        (if (probes_to_graph_edge_arrays useQuery positions numbers probe_pos images
            cutoff).isEmpty
         then [([] : List A)]
         else probes_to_graph_feature_arrays useQuery positions numbers probe_pos images
            cutoff) = some pf ∧
      pe.cols = 2 ∧
      (probes_to_graph useQuery positions numbers probe_pos images cutoff = [] →
        pe.data = [] ∧ pf = []) := by
  by_cases hemp : (probes_to_graph_edge_arrays useQuery positions numbers probe_pos
      images cutoff).isEmpty = true
  · refine ⟨⟨2, []⟩, [], ?_, ?_, rfl, fun _ => ⟨rfl, rfl⟩⟩
    · rw [if_pos hemp]
      rfl
    · rw [if_pos hemp]
      rfl
  · have hne : probes_to_graph_edge_arrays useQuery positions numbers probe_pos images
        cutoff ≠ [] := by
      intro h
      exact hemp (by rw [h]; rfl)
    have hcols : ∀ a ∈ probes_to_graph_edge_arrays useQuery positions numbers probe_pos
        images cutoff, a.cols = 2 := by
      intro a ha
      obtain ⟨l, _, rfl⟩ := List.mem_map.mp ha
      rfl
    have hfne : probes_to_graph_feature_arrays useQuery positions numbers probe_pos
        images cutoff ≠ [] := by
      simp only [probes_to_graph_feature_arrays, ne_eq, List.map_eq_nil_iff]
      intro h
      apply hne
      simp only [probes_to_graph_edge_arrays, h, List.map_nil]
    refine ⟨⟨2, (probes_to_graph_edge_arrays useQuery positions numbers probe_pos images
          cutoff).flatMap (fun b => b.data)⟩,
        (probes_to_graph_feature_arrays useQuery positions numbers probe_pos images
          cutoff).flatten, ?_, ?_, rfl, ?_⟩
    · rw [if_neg hemp]
      exact np_concatenate_eq _ 2 hne hcols
    · rw [if_neg hemp]
      exact np_concatenate1_eq _ hfne
    · intro hflat
      have hall : ∀ l ∈ probes_to_graph_per_probe useQuery positions numbers probe_pos
          images cutoff, l = [] := by
        rw [probes_to_graph] at hflat
        exact List.flatten_eq_nil_iff.mp hflat
      constructor
      · show (probes_to_graph_edge_arrays useQuery positions numbers probe_pos images
            cutoff).flatMap (fun b => b.data) = []
        rw [List.flatMap_eq_nil_iff]
        intro a ha
        obtain ⟨l, hlmem, rfl⟩ := List.mem_map.mp ha
        show l.map (fun e => [e.1, e.2.1]) = []
        rw [hall l hlmem]
        rfl
      · rw [List.flatten_eq_nil_iff]
        intro l hl
        obtain ⟨l0, hl0, rfl⟩ := List.mem_map.mp hl
        rw [hall l0 hl0]
        rfl

/-- C8: the graph-dict builder and the grid-slice builder never omit an edge
field or raise: with at least one atom they always return a result whose
edge arrays have column width 2 and whose feature arrays have column width 1,
and whenever the probe-edge set (resp., for a structure of isolated atoms,
the atom-edge set) is empty after graph construction the corresponding
returned arrays are the explicit zero-row arrays of that width. -/
theorem empty_edges_get_placeholder {A : Type} [LinearOrderedCommRing A]
    (useQuery : Bool) (positions : List (Vec3 A)) (numbers : List ℤ)
    (probe_pos images : List (Vec3 A)) (cutoff : A)
    (slice_index probe_count total : ℕ) (grid : ℕ → Vec3 A)
    (hpos : positions ≠ []) :
    (∃ g, atoms_and_probe_sample_to_graph_dict useQuery positions numbers probe_pos
        images cutoff = some g ∧
      g.atom_edges.cols = 2 ∧ g.atom_edges_features.cols = 1 ∧
      g.probe_edges.cols = 2 ∧ g.probe_edges_features.cols = 1 ∧
      (probes_to_graph useQuery positions numbers probe_pos images cutoff = [] →
        g.probe_edges.data = [] ∧ g.probe_edges_features.data = []) ∧
      (atoms_to_graph positions images cutoff = [] →
        g.atom_edges.data = [] ∧ g.atom_edges_features.data = [])) ∧
    (∃ r, static_get_slice slice_index probe_count total grid useQuery positions numbers
        images cutoff = some r ∧
      r.1.cols = 2 ∧ r.2.1.cols = 1 ∧
      r.2.2.2 = (slice_flat_index slice_index probe_count total).length ∧
      (probes_to_graph useQuery positions numbers
          ((slice_flat_index slice_index probe_count total).map grid) images cutoff = [] →
        r.1.data = [] ∧ r.2.1.data = [])) := by
  have hper_ne : atoms_to_graph_per_atom positions images cutoff ≠ [] := by
    simp only [atoms_to_graph_per_atom, ne_eq, List.map_eq_nil_iff, List.range_eq_nil,
      List.length_eq_zero]
    exact hpos
  have hatom_ne : atoms_to_graph_edge_arrays positions images cutoff ≠ [] := by
    simp only [atoms_to_graph_edge_arrays, ne_eq, List.map_eq_nil_iff]
    exact hper_ne
  have hatom_cols : ∀ a ∈ atoms_to_graph_edge_arrays positions images cutoff,
      a.cols = 2 := by
    intro a ha
    obtain ⟨l, _, rfl⟩ := List.mem_map.mp ha
    rfl
  have hfeat_ne : atoms_to_graph_feature_arrays positions images cutoff ≠ [] := by
    simp only [atoms_to_graph_feature_arrays, ne_eq, List.map_eq_nil_iff]
    exact hper_ne
  have hac := np_concatenate_eq (atoms_to_graph_edge_arrays positions images cutoff) 2
    hatom_ne hatom_cols
  have haf := np_concatenate1_eq (atoms_to_graph_feature_arrays positions images cutoff)
    hfeat_ne
  obtain ⟨pe, pf, hpe, hpf, hpcols, hpempty⟩ :=
    probe_edge_concat useQuery positions numbers probe_pos images cutoff
  obtain ⟨pe2, pf2, hpe2, hpf2, hpcols2, hpempty2⟩ :=
    probe_edge_concat useQuery positions numbers
      ((slice_flat_index slice_index probe_count total).map grid) images cutoff
  constructor
  · refine ⟨⟨⟨2, (atoms_to_graph_edge_arrays positions images cutoff).flatMap
          (fun b => b.data)⟩,
        colonNone ((atoms_to_graph_feature_arrays positions images cutoff).flatten),
        pe, colonNone pf⟩, ?_, rfl, rfl, hpcols, rfl, ?_, ?_⟩
    · unfold atoms_and_probe_sample_to_graph_dict
      rw [hac, haf, hpe, hpf]
    · intro hflat
      obtain ⟨h1, h2⟩ := hpempty hflat
      refine ⟨h1, ?_⟩
      show pf.map (fun a => [a]) = []
      rw [h2]
      rfl
    · intro hflat
      have hall : ∀ l ∈ atoms_to_graph_per_atom positions images cutoff, l = [] := by
        rw [atoms_to_graph] at hflat
        exact List.flatten_eq_nil_iff.mp hflat
      constructor
      · show (atoms_to_graph_edge_arrays positions images cutoff).flatMap
          (fun b => b.data) = []
        rw [List.flatMap_eq_nil_iff]
        intro a ha
        obtain ⟨l, hlmem, rfl⟩ := List.mem_map.mp ha
        show l.map (fun e => [e.1, e.2.1]) = []
        rw [hall l hlmem]
        rfl
      · show ((atoms_to_graph_feature_arrays positions images cutoff).flatten).map
          (fun a => [a]) = []
        have hnil : (atoms_to_graph_feature_arrays positions images cutoff).flatten
            = [] := by
          rw [List.flatten_eq_nil_iff]
          intro l hl
          obtain ⟨l0, hl0, rfl⟩ := List.mem_map.mp hl
          rw [hall l0 hl0]
          rfl
        rw [hnil]
        rfl
  · refine ⟨(pe2, colonNone pf2, pe2.data.length,
        (slice_flat_index slice_index probe_count total).length), ?_, hpcols2, rfl, rfl,
        ?_⟩
    · unfold static_get_slice
      rw [hpe2, hpf2]
    · intro hflat
      obtain ⟨h1, h2⟩ := hpempty2 hflat
      refine ⟨h1, ?_⟩
      show pf2.map (fun a => [a]) = []
      rw [h2]
      rfl

/-- C8 witness: one atom at the origin, zero probes, an empty grid: both
builders return results with the explicit zero-row probe-edge placeholders. -/
theorem empty_edges_get_placeholder_witness :
    ([(⟨0, 0, 0⟩ : Vec3 ℤ)] ≠ []) ∧
    ((∃ g, atoms_and_probe_sample_to_graph_dict false [(⟨0, 0, 0⟩ : Vec3 ℤ)] [1] []
        [vzero] 2 = some g ∧
      g.atom_edges.cols = 2 ∧ g.atom_edges_features.cols = 1 ∧
      g.probe_edges.cols = 2 ∧ g.probe_edges_features.cols = 1 ∧
      (probes_to_graph false [(⟨0, 0, 0⟩ : Vec3 ℤ)] [1] [] [vzero] 2 = [] →
        g.probe_edges.data = [] ∧ g.probe_edges_features.data = []) ∧
      (atoms_to_graph [(⟨0, 0, 0⟩ : Vec3 ℤ)] [vzero] 2 = [] →
        g.atom_edges.data = [] ∧ g.atom_edges_features.data = [])) ∧
    (∃ r, static_get_slice 0 1 0 (fun _ => vzero) false [(⟨0, 0, 0⟩ : Vec3 ℤ)] [1]
        [vzero] 2 = some r ∧
      r.1.cols = 2 ∧ r.2.1.cols = 1 ∧
      r.2.2.2 = (slice_flat_index 0 1 0).length ∧
      (probes_to_graph false [(⟨0, 0, 0⟩ : Vec3 ℤ)] [1]
          ((slice_flat_index 0 1 0).map (fun _ => vzero)) [vzero] 2 = [] →
        r.1.data = [] ∧ r.2.1.data = []))) :=
  ⟨by decide,
   empty_edges_get_placeholder false [⟨0, 0, 0⟩] [1] [] [vzero] 2 0 1 0 (fun _ => vzero)
     (by decide)⟩

theorem collateKeys_lookup {V : Type} (pad : List V → V)
    (ds : List (List (String × V))) :
    ∀ (ks : List String) (out : List (String × V)) (k : String) (vs : List V),
      collateKeys pad ds ks = some out → k ∈ ks → gatherField k ds = some vs →
      lookupD k out = some (pad vs) := by
  intro ks
  induction ks with
  | nil =>
    intro out k vs _ hk _
    exact absurd hk (List.not_mem_nil k)
  | cons k0 ks ih =>
    intro out k vs hck hk hg
    rw [collateKeys] at hck
    cases hg0 : gatherField k0 ds with
    | none =>
      rw [hg0] at hck
      simp at hck
    | some vs0 =>
      rw [hg0] at hck
      cases hck0 : collateKeys pad ds ks with
      | none =>
        rw [hck0] at hck
        simp at hck
      | some rest =>
        rw [hck0] at hck
        simp only [Option.some.injEq] at hck
        subst hck
        by_cases hkk : k = k0
        · subst hkk
          rw [lookupD, if_pos rfl]
          rw [hg0, Option.some.injEq] at hg
          rw [hg]
        · rw [lookupD, if_neg hkk]
          have hk' : k ∈ ks := by
            rcases List.mem_cons.mp hk with h | h
            · exact absurd h hkk
            · exact h
          exact ih rest k vs hck0 hk' hg

/-- C1 (amended): collation is field-wise — whenever collation succeeds, the
batched value of each field of the first graph is `pad_and_stack` applied to
that field's list of per-graph tensors alone, independent of every other
field; in particular no cumulative node-count offset is (or can be) added to
the edge-index fields, whose entries stay local to each member graph. -/
theorem collate_fieldwise_pad {V : Type} (pad : List V → V)
    (d0 : List (String × V)) (tl : List (List (String × V)))
    (out : List (String × V)) (k : String) (vs : List V)
    (hcol : collate_list_of_dicts pad (d0 :: tl) = some out)
    (hk : k ∈ keysOf d0)
    (hg : gatherField k (d0 :: tl) = some vs) :
    lookupD k out = some (pad vs) := by
  rw [collate_list_of_dicts] at hcol
  exact collateKeys_lookup pad (d0 :: tl) (keysOf d0) out k vs hcol hk hg

/-- C1 (amended) witness: a concrete two-graph batch with `pad` instantiated
to row concatenation; the collated `atom_edges` field is the padded gathering
of the members' unchanged local edge tensors. -/
theorem collate_fieldwise_pad_witness :
    (collate_list_of_dicts (fun vs => vs.flatten)
        [graphToDict exGraphA, graphToDict exGraphB] = some
      [("nodes", [[5], [9]]), ("atom_edges", [[0, 0], [0, 0]]),
       ("atom_edges_features", [[7], [7]]), ("probe_edges", []),
       ("probe_edges_features", []), ("probe_target", []),
       ("num_nodes", [[1], [1]]), ("num_atom_edges", [[1], [1]]),
       ("num_probe_edges", [[0], [0]]), ("num_probes", [[0], [0]])]) ∧
    ("atom_edges" ∈ keysOf (graphToDict exGraphA)) ∧
    (gatherField "atom_edges" [graphToDict exGraphA, graphToDict exGraphB]
      = some [[[0, 0]], [[0, 0]]]) ∧
    lookupD "atom_edges"
      [("nodes", [[5], [9]]), ("atom_edges", [[0, 0], [0, 0]]),
       ("atom_edges_features", [[7], [7]]), ("probe_edges", []),
       ("probe_edges_features", []), ("probe_target", []),
       ("num_nodes", [[1], [1]]), ("num_atom_edges", [[1], [1]]),
       ("num_probe_edges", [[0], [0]]), ("num_probes", [[0], [0]])]
      = some ([[0, 0], [0, 0]] : List (List ℤ)) :=
  ⟨by decide, by decide, by decide,
   collate_fieldwise_pad (fun vs => vs.flatten) (graphToDict exGraphA)
     [graphToDict exGraphB] _ "atom_edges" [[[0, 0]], [[0, 0]]]
     (by decide) (by decide) (by decide)⟩

/-- C1 counterexample: no `pad_and_stack` function can make
`collate_list_of_dicts` produce node-count-offset edge indices, because the
batched `atom_edges` field is computed from the members' `atom_edges`
tensors alone: two batches whose members have identical edge tensors but
different node counts would need different offsets yet collate identically. -/
theorem collate_no_offset_counterexample : ¬ ∃ pad, ClaimC1 pad := by
  rintro ⟨pad, h⟩
  obtain ⟨out1, hc1, hl1⟩ := h [exGraphA, exGraphB] (List.cons_ne_nil _ _)
  obtain ⟨out2, hc2, hl2⟩ := h [exGraphA2, exGraphB] (List.cons_ne_nil _ _)
  have h1 : lookupD "atom_edges" out1 = some (pad [[[0, 0]], [[0, 0]]]) :=
    collate_fieldwise_pad pad (graphToDict exGraphA) [graphToDict exGraphB] out1
      "atom_edges" [[[0, 0]], [[0, 0]]] hc1 (by decide) (by decide)
  have h2 : lookupD "atom_edges" out2 = some (pad [[[0, 0]], [[0, 0]]]) :=
    collate_fieldwise_pad pad (graphToDict exGraphA2) [graphToDict exGraphB] out2
      "atom_edges" [[[0, 0]], [[0, 0]]] hc2 (by decide) (by decide)
  have e1 : pad [[[0, 0]], [[0, 0]]] = spec_batch_atom_edges [exGraphA, exGraphB] := by
    have := h1.symm.trans hl1
    rwa [Option.some.injEq] at this
  have e2 : pad [[[0, 0]], [[0, 0]]] = spec_batch_atom_edges [exGraphA2, exGraphB] := by
    have := h2.symm.trans hl2
    rwa [Option.some.injEq] at this
  have : spec_batch_atom_edges [exGraphA, exGraphB]
      = spec_batch_atom_edges [exGraphA2, exGraphB] := e1.symm.trans e2
  exact absurd this (by decide)

theorem gatherField_isSome {V : Type} (k : String) (ds : List (List (String × V))) :
    (gatherField k ds).isSome = true ↔ ∀ d ∈ ds, (lookupD k d).isSome = true := by
  induction ds with
  | nil => simp [gatherField]
  | cons d rest ih =>
    rw [gatherField]
    cases h0 : lookupD k d with
    | none => simp [h0]
    | some v =>
      cases h1 : gatherField k rest with
      | none =>
        rw [h1] at ih
        simp only [Option.isSome_none, Bool.false_eq_true, false_iff] at ih
        push_neg at ih
        obtain ⟨d2, hd2, hd2n⟩ := ih
        simp only [Option.isSome_some, List.mem_cons]
        constructor
        · intro hfalse
          exact absurd hfalse (by simp)
        · intro hall
          exact absurd (hall d2 (Or.inr hd2)) hd2n
      | some vs =>
        rw [h1] at ih
        simp only [Option.isSome_some, true_iff] at ih
        simp only [Option.isSome_some, true_iff, List.mem_cons]
        intro d2 hd2
        rcases hd2 with rfl | hd2
        · rw [h0]
          rfl
        · exact ih d2 hd2

theorem collateKeys_isSome {V : Type} (pad : List V → V)
    (ds : List (List (String × V))) :
    ∀ ks : List String, (collateKeys pad ds ks).isSome = true ↔
      ∀ k ∈ ks, (gatherField k ds).isSome = true := by
  intro ks
  induction ks with
  | nil => simp [collateKeys]
  | cons k0 ks ih =>
    rw [collateKeys]
    cases h0 : gatherField k0 ds with
    | none =>
      simp only [List.mem_cons]
      constructor
      · intro hfalse
        exact absurd hfalse (by simp)
      · intro hall
        exact absurd (hall k0 (Or.inl rfl)) (by rw [h0]; simp)
    | some vs =>
      cases h1 : collateKeys pad ds ks with
      | none =>
        rw [h1] at ih
        simp only [Option.isSome_none, Bool.false_eq_true, false_iff] at ih
        push_neg at ih
        obtain ⟨k2, hk2, hk2n⟩ := ih
        simp only [List.mem_cons]
        constructor
        · intro hfalse
          exact absurd hfalse (by simp)
        · intro hall
          exact absurd (hall k2 (Or.inr hk2)) hk2n
      | some rest =>
        rw [h1] at ih
        simp only [Option.isSome_some, true_iff] at ih
        simp only [Option.isSome_some, true_iff, List.mem_cons]
        intro k hk
        rcases hk with rfl | hk
        · rw [h0]
          rfl
        · exact ih k hk

theorem collateKeys_keys {V : Type} (pad : List V → V)
    (ds : List (List (String × V))) :
    ∀ (ks : List String) (out : List (String × V)),
      collateKeys pad ds ks = some out → keysOf out = ks := by
  intro ks
  induction ks with
  | nil =>
    intro out h
    rw [collateKeys, Option.some.injEq] at h
    rw [← h]
    rfl
  | cons k0 ks ih =>
    intro out h
    rw [collateKeys] at h
    cases h0 : gatherField k0 ds with
    | none =>
      rw [h0] at h
      simp at h
    | some vs =>
      rw [h0] at h
      cases h1 : collateKeys pad ds ks with
      | none =>
        rw [h1] at h
        simp at h
      | some rest =>
        rw [h1] at h
        simp only [Option.some.injEq] at h
        subst h
        show k0 :: keysOf rest = k0 :: ks
        rw [ih rest h1]

/-- C5 (amended): collation fails fast exactly when some input graph is
missing a field that the FIRST graph exposes — for every `pad_and_stack`,
collation succeeds iff every field name of the first graph is present in
every graph — and the batch contains exactly the first graph's fields, so a
field present only in later graphs is silently dropped, not an error. -/
theorem collate_missing_field (V : Type) (pad : List V → V)
    (d0 : List (String × V)) (tl : List (List (String × V))) :
    ((collate_list_of_dicts pad (d0 :: tl)).isSome = true ↔
      ∀ k ∈ keysOf d0, ∀ d ∈ d0 :: tl, (lookupD k d).isSome = true) ∧
    (∀ out, collate_list_of_dicts pad (d0 :: tl) = some out →
      keysOf out = keysOf d0) := by
  constructor
  · rw [collate_list_of_dicts, collateKeys_isSome]
    constructor
    · intro hall k hk d hd
      exact (gatherField_isSome k (d0 :: tl)).mp (hall k hk) d hd
    · intro hall k hk
      exact (gatherField_isSome k (d0 :: tl)).mpr (fun d hd => hall k hk d hd)
  · intro out hout
    rw [collate_list_of_dicts] at hout
    exact collateKeys_keys pad (d0 :: tl) (keysOf d0) out hout

/-- C5 (amended) witness: the theorem instantiated at the batch
`[{a}, {a, b}]` with `pad` the row concatenation. -/
theorem collate_missing_field_witness :
    ((collate_list_of_dicts (fun vs => vs.flatten)
        (exDictSmall :: [exDictBig])).isSome = true ↔
      ∀ k ∈ keysOf exDictSmall, ∀ d ∈ exDictSmall :: [exDictBig],
        (lookupD k d).isSome = true) ∧
    (∀ out, collate_list_of_dicts (fun vs => vs.flatten)
        (exDictSmall :: [exDictBig]) = some out →
      keysOf out = keysOf exDictSmall) :=
  collate_missing_field (List (List ℤ)) (fun vs => vs.flatten) exDictSmall [exDictBig]

/-- C5 counterexample: the batch `[{a}, {a, b}]` — the first dict is missing
field `b` which the second exposes — collates successfully (silently
dropping `b`) instead of failing fast. -/
theorem collate_missing_field_counterexample : ¬ ClaimC5 := by
  intro h
  have hnone := h (fun vs => vs.flatten) [exDictSmall, exDictBig]
    (List.cons_ne_nil _ _)
    ⟨exDictSmall, List.mem_cons_self _ _, "b",
      ⟨exDictBig, List.mem_cons_of_mem _ (List.mem_cons_self _ _), by decide⟩,
      by decide⟩
  exact absurd hnone (by decide)

theorem getD_mem_of_lt {α : Type} (l : List α) (k : ℕ) (d : α) (hk : k < l.length) :
    l.getD k d ∈ l := by
  rw [List.getD_eq_getElem?_getD, List.getElem?_eq_getElem hk]
  exact List.getElem_mem hk

/-- C10: on construction `RotatingPoolData` synchronously fills its whole
pool with `pool_size` samples of the parent dataset before the background
producer and transfer contexts start, and every subsequent transfer step
overwrites one slot with another fully-loaded parent sample; hence in every
reachable state `len()` is the fixed `pool_size` and `get(i)` for every
`i < pool_size` is a fully-loaded parent sample — no slot is ever empty or
uninitialized. -/
theorem rotating_pool_always_full {α : Type} (parent : List α) (dflt : α) (n : ℕ)
    (pool : List α) (h : PoolReachable parent dflt n pool) :
    pool.length = n ∧ ∀ i, i < n → pool.getD i dflt ∈ parent := by
  induction h with
  | init idxs hlen hidx =>
    constructor
    · rw [pool_init, List.length_map, hlen]
    · intro i hi
      have hilt : i < idxs.length := by rw [hlen]; exact hi
      rw [pool_init, List.getD_eq_getElem?_getD, List.getElem?_map,
        List.getElem?_eq_getElem hilt]
      exact getD_mem_of_lt parent (idxs[i]) dflt
        (hidx (idxs[i]) (List.getElem_mem hilt))
  | step pool slot j hj hpool ih =>
    obtain ⟨ihlen, ihmem⟩ := ih
    constructor
    · rw [List.length_set, ihlen]
    · intro i hi
      by_cases his : slot = i
      · subst his
        have hslot : slot < pool.length := by rw [ihlen]; exact hi
        rw [List.getD_eq_getElem?_getD, List.getElem?_set, if_pos rfl, if_pos hslot]
        exact getD_mem_of_lt parent j dflt hj
      · rw [List.getD_eq_getElem?_getD, List.getElem?_set, if_neg his,
          ← List.getD_eq_getElem?_getD]
        exact ihmem i hi

/-- C10 witness: a pool of size 2 over the parent `[10, 20]`, filled with
draws `[1, 0]` and then hit by one transfer step writing `parent[0]` into
slot 0. -/
theorem rotating_pool_always_full_witness :
    PoolReachable [10, 20] 0 2 ([10, 10] : List ℕ) ∧
    (([10, 10] : List ℕ).length = 2 ∧
      ∀ i, i < 2 → ([10, 10] : List ℕ).getD i 0 ∈ [10, 20]) := by
  have hr : PoolReachable [10, 20] 0 2 ([10, 10] : List ℕ) :=
    PoolReachable.step (pool_init [10, 20] 0 [1, 0]) 0 0 (by decide)
      (PoolReachable.init [1, 0] rfl (by decide))
  exact ⟨hr, rotating_pool_always_full [10, 20] 0 2 [10, 10] hr⟩

end DeepDFT
